import Mathlib

/-!
Verification of the HTTPS client/server subsystem in `library/neh/https.cpp`:
the hostname matcher, the output connection pool (hard-limit gate and purge),
the input-connection keep-alive governor, the cooperative BIO read loop and
the server-side failure job.  C++ strings are embedded as `List Nat` (byte
values), machine counters as `Nat`.
-/

namespace Https

/-- Modelled from the spec: `FdLimits` (`library/neh/http_common.h` is not part
of the sources): `{soft, hard}` with `exceed(current, limit) = max(0, current - limit)`
and `delta() = hard - soft`.  `Nat` subtraction is truncated, which is exactly
`max (0, a - b)`. -/
structure TFdLimits where
  Soft : Nat
  Hard : Nat
deriving DecidableEq, Repr

/-- Modelled from the spec: `exceed(current, limit) = max(0, current - limit)`. -/
def TFdLimits.ExceedLimit (val limit : Nat) : Nat :=
  val - limit

/-- Modelled from the spec: `delta() = hard - soft`. -/
def TFdLimits.Delta (l : TFdLimits) : Nat :=
  l.Hard - l.Soft

/-- State of `TInputConnections` (https.cpp:90-129): the accepted-socket
counter, the fd limits and the keep-alive bounds (seconds). -/
structure TInputConnections where
  Counter : Nat
  Limits : TFdLimits
  MaxUnusedConnKeepaliveTimeout : Nat
  MinUnusedConnKeepaliveTimeout : Nat
deriving DecidableEq, Repr

/-- `TInputConnections::ExceedSoftLimit` (https.cpp:98-100). -/
def TInputConnections.ExceedSoftLimit (s : TInputConnections) : Nat :=
  TFdLimits.ExceedLimit s.Counter s.Limits.Soft

/-- `TInputConnections::DeltaLimit` (https.cpp:106-108). -/
def TInputConnections.DeltaLimit (s : TInputConnections) : Nat :=
  s.Limits.Delta

/-- `TInputConnections::UnusedConnKeepaliveTimeout` (https.cpp:110-118):
if the soft limit is exceeded by `e`, with `d = Delta` and
`left = ExceedLimit(d, e)`, return `max (Max * left / (d + 1)) Min`;
otherwise return `Max`. -/
def TInputConnections.UnusedConnKeepaliveTimeout (s : TInputConnections) : Nat :=
  let e := s.ExceedSoftLimit
  if e ≠ 0 then
    let d := s.DeltaLimit
    let leftAvailableFd := TFdLimits.ExceedLimit d e
    let r := s.MaxUnusedConnKeepaliveTimeout * leftAvailableFd / (d + 1)
    max r s.MinUnusedConnKeepaliveTimeout
  else
    s.MaxUnusedConnKeepaliveTimeout

/-- The claim C6 formula, written the way the spec states it: if
`counter ≤ soft` return `max_keepalive_s`; else with `e = counter - soft`,
`d = hard - soft`, `left = max 0 (d - e)` return
`max min_keepalive_s (max_keepalive_s * left / (d + 1))`. -/
def specIdleKeepaliveTimeout (s : TInputConnections) : Nat :=
  if s.Counter ≤ s.Limits.Soft then
    s.MaxUnusedConnKeepaliveTimeout
  else
    let e := s.Counter - s.Limits.Soft
    let d := s.Limits.Hard - s.Limits.Soft
    let left := d - e
    max s.MinUnusedConnKeepaliveTimeout (s.MaxUnusedConnKeepaliveTimeout * left / (d + 1))

/-- ASCII lowercase of a byte, as `TString::to_lower` does in the C locale:
bytes 65..90 (`A`..`Z`) map to 97..122 (`a`..`z`), all others unchanged. -/
def lowerByte (b : Nat) : Nat :=
  if 65 ≤ b ∧ b ≤ 90 then b + 32 else b

/-- `EqualNoCase` (https.cpp:328-330): sizes equal and the lowercased copies
equal. -/
def EqualNoCase (a b : List Nat) : Bool :=
  (a.length == b.length) && (a.map lowerByte == b.map lowerByte)

/-- `TStringBuf::NextTok(d)`: split at the first occurrence of byte `d`.
Returns (token before the delimiter, rest after it); when the delimiter is
absent the token is the whole buffer and the rest is empty. -/
def splitFirst (d : Nat) : List Nat → List Nat × List Nat
  | [] => ([], [])
  | c :: cs =>
    if c = d then
      ([], cs)
    else
      let p := splitFirst d cs
      (c :: p.1, p.2)

/-- Byte value of the dot character. -/
def dotByte : Nat := 46

/-- Byte value of the asterisk character. -/
def starByte : Nat := 42

/-- `MatchDomainName` (https.cpp:331-342): take the template's first
dot-separated label; if it is exactly `*`, compare the template's remainder
with the hostname's remainder after its first label, else compare template and
hostname whole; both comparisons via `EqualNoCase`. -/
def MatchDomainName (tmpl name : List Nat) : Bool :=
  let p := splitFirst dotByte tmpl
  if p.1 = [starByte] then
    EqualNoCase p.2 (splitFirst dotByte name).2
  else
    EqualNoCase tmpl name

/-- The claim C1 matcher, written the way the claim states it: the template
equals the hostname ignoring ASCII case, or the template's first label is
exactly `*` and the template's remaining labels equal the hostname's labels
after its first, ignoring ASCII case. -/
def specMatchDomainName (tmpl name : List Nat) : Bool :=
  (tmpl.map lowerByte == name.map lowerByte) ||
    ((splitFirst dotByte tmpl).1 == [starByte] &&
      ((splitFirst dotByte tmpl).2.map lowerByte ==
        (splitFirst dotByte name).2.map lowerByte))

/-- State of `TConnCache` (https.cpp:435-782): fd limits, the count of
connections handed out, and the per-host queues of cached idle sockets.
A queue entry is the liveness of its socket: `true` when
`TCont::SocketNotClosedByOtherSide` would report it alive.  The list is
indexed by the host's dense numeric id; the front of a queue is its oldest
entry (the one `Dequeue` returns first).  `MaxConnId` is the purge-iteration
high-water mark. -/
structure TConnCache where
  Limits : TFdLimits
  ActiveSockets : Nat
  Lst : List (List Bool)
  MaxConnId : Nat
deriving DecidableEq, Repr

/-- `TConnCache::CachedSockets` counter value at quiescence: the sum of the
queue sizes. -/
def TConnCache.CachedSockets (s : TConnCache) : Nat :=
  (s.Lst.map List.length).sum

/-- `TConnCache::TotalSockets` (https.cpp:757-759). -/
def TConnCache.TotalSockets (s : TConnCache) : Nat :=
  s.ActiveSockets + s.CachedSockets

/-- `TConnCache::ExceedSoftLimit` (https.cpp:761-763). -/
def TConnCache.ExceedSoftLimit (s : TConnCache) : Nat :=
  TFdLimits.ExceedLimit s.TotalSockets s.Limits.Soft

/-- `TConnCache::ExceedHardLimit` (https.cpp:765-767). -/
def TConnCache.ExceedHardLimit (s : TConnCache) : Nat :=
  TFdLimits.ExceedLimit s.TotalSockets s.Limits.Hard

/-- Outcome of the entry gate of `TConnCache::Connect` (https.cpp:546-552):
either the hard-limit refusal (the `OutputLimit` error, returned before any
socket work) or fall-through into the dequeue/connect path. -/
inductive TConnectGate where
  | outputLimitError
  | proceedToConnect
deriving DecidableEq, Repr

/-- The first statement of `TConnCache::Connect` (https.cpp:546-552): if
`ExceedHardLimit()` is non-zero, fail with the output-connections-limit error
without touching any socket; otherwise continue. -/
def TConnCache.ConnectGate (s : TConnCache) : TConnectGate :=
  if s.ExceedHardLimit ≠ 0 then
    TConnectGate.outputLimitError
  else
    TConnectGate.proceedToConnect

/-- The purge fraction in 256ths (https.cpp:722):
`min (max (256/32) ((ExceedSoftLimit << 8) / (CachedSockets + 1))) 256`. -/
def TConnCache.PurgeFrac256 (s : TConnCache) : Nat :=
  min (max (256 / 32) ((s.ExceedSoftLimit * 256) / (s.CachedSockets + 1))) 256

/-- One queue's processing inside `TConnCache::PurgeCache` (https.cpp:728-749)
on a non-empty queue of size `qsize`, with the run's fraction `frac`:
`purgeCounter = (qsize * frac) >> 8`; if that is zero then a queue of size
at most 2 gets a dead-check (dequeue one entry, re-enqueue it when its socket
is alive, drop it otherwise), and a larger queue has `purgeCounter` forced
to 1; finally `purgeCounter` entries are dequeued and dropped. -/
def purgeQueue (frac : Nat) (q : List Bool) : List Bool :=
  if q.length = 0 then
    q
  else
    let pc := q.length * frac / 256
    if pc = 0 then
      if q.length ≤ 2 then
        match q with
        | [] => []
        | a :: rest => if a then rest ++ [a] else rest
      else
        q.drop 1
    else
      q.drop pc

/-- `TConnCache::PurgeCache` (https.cpp:719-751): compute the fraction once,
then visit the queues with indices in `[0, MaxConnId)` and process each with
`purgeQueue`; queues at indices `≥ MaxConnId` are not visited. -/
def TConnCache.PurgeCache (s : TConnCache) : TConnCache :=
  let frac := s.PurgeFrac256
  { s with Lst := (s.Lst.take s.MaxConnId).map (purgeQueue frac) ++ s.Lst.drop s.MaxConnId }

/-- A sufficient condition, read off https.cpp:728-749, for `purgeQueue` to
shrink a queue: the queue is non-empty and its purge quota is at least 1, or
it has more than two entries, or its first (oldest) entry is a dead socket. -/
def queueForcedShrink (frac : Nat) : List Bool → Bool
  | [] => false
  | a :: rest =>
    (1 ≤ (a :: rest).length * frac / 256 : Bool) || (2 < (a :: rest).length : Bool) || !a

/-- `SSL_RVAL_TIMEOUT` (https.cpp:88): the sentinel forced out of the BIO read
when the request is cancelled. -/
def SSL_RVAL_TIMEOUT : Int := -42

/-- The initial poll timeout of a `TContBIO`, set once in the constructor
(https.cpp:956): 10000 microseconds = 10 ms. -/
def initialBioTimeout : Nat := 10000

/-- The timeout update on a timed-out poll (https.cpp:1059):
`min 1000000 (t + (t >> 1))` microseconds. -/
def nextBioTimeout (t : Nat) : Nat :=
  min 1000000 (t + t / 2)

/-- One iteration's environment inside the cancellable branch of
`TContBIO::BIOReadMethod` (https.cpp:1051-1064): what `ReadT` reports when it
is reached. `timedOut` is status `ETIMEDOUT`; `done p` is any other status,
whose return value is the processed byte count `p` (0 on orderly close and on
other-error statuses, since `Processed()` is returned, not an errno). -/
inductive TContIOResult where
  | timedOut
  | done (processed : Nat)
deriving DecidableEq, Repr

/-- Result of running the cancellable read loop against a finite schedule of
iterations: the returned value when the loop exits within the schedule, the
`Timeout_` member left behind on the bio, and the sequence of poll timeouts
actually passed to `ReadT`. -/
structure BioReadResult where
  retval : Option Int
  timeoutAfter : Nat
  pollTimeouts : List Nat
deriving DecidableEq, Repr

/-- The cancellable read loop of `TContBIO::BIOReadMethod`
(https.cpp:1051-1064), driven by a schedule: each element is the value of the
cancellation flag observed at the top of the loop, paired with the `ReadT`
outcome used if the flag is false.  A set flag returns `SSL_RVAL_TIMEOUT`
before any poll; `ETIMEDOUT` grows `Timeout_` and loops; any other outcome
returns its processed count.  `Timeout_` is a member of the bio: it is taken
from and left in the state, not reset per call. -/
def bioReadLoop (t : Nat) : List (Bool × TContIOResult) → BioReadResult
  | [] => ⟨none, t, []⟩
  | (canceled, io) :: rest =>
    if canceled then
      ⟨some SSL_RVAL_TIMEOUT, t, []⟩
    else
      match io with
      | TContIOResult.done p => ⟨some (Int.ofNat p), t, [t]⟩
      | TContIOResult.timedOut =>
        let r := bioReadLoop (nextBioTimeout t) rest
        ⟨r.retval, r.timeoutAfter, t :: r.pollTimeouts⟩

/-- Chain property of a poll-timeout trace: each poll's timeout is obtained
from the previous one by the `nextBioTimeout` update. -/
def bioTimeoutChain : List Nat → Prop
  | [] => True
  | [_] => True
  | a :: b :: rest => b = nextBioTimeout a ∧ bioTimeoutChain (b :: rest)

/-- Jobs a server-side request can enqueue (https.cpp:1627-1818): a response
writer, the failure writer, or a new read job; each carries the id of the
stream it operates on. -/
inductive TServerJob where
  | write (stream : Option Nat)
  | fail (stream : Nat)
  | read (stream : Nat)
deriving DecidableEq, Repr

/-- State of a `TServer::TRequest` (https.cpp:1670-1764): the `IO_` intrusive
pointer, holding the stream id while attached.  `SendReply` and `SendError`
release it (https.cpp:1726, 1732). -/
structure TRequestState where
  io : Option Nat
deriving DecidableEq, Repr

/-- The calls a user can make on a request before dropping it. -/
inductive TRequestCall where
  | sendReply
  | sendError
deriving DecidableEq, Repr

/-- `TRequest::SendReply` / `TRequest::SendError` (https.cpp:1719-1733): both
enqueue a `TWrite` job carrying the current `IO_` pointer (possibly already
null), then release `IO_`. -/
def requestApplyCall (s : TRequestState) (c : TRequestCall) : TRequestState × List TServerJob :=
  match c with
  | TRequestCall.sendReply => (⟨none⟩, [TServerJob.write s.io])
  | TRequestCall.sendError => (⟨none⟩, [TServerJob.write s.io])

/-- `TRequest::~TRequest` (https.cpp:1683-1690): when `IO_` is still attached,
enqueue a `TFail` job for that stream; otherwise enqueue nothing. -/
def requestDestruct (s : TRequestState) : List TServerJob :=
  match s.io with
  | some st => [TServerJob.fail st]
  | none => []

/-- Run the remaining user calls on a request state and then destroy it,
collecting every enqueued job in order. -/
def requestRunCalls (s : TRequestState) : List TRequestCall → List TServerJob
  | [] => requestDestruct s
  | c :: rest =>
    (requestApplyCall s c).2 ++ requestRunCalls (requestApplyCall s c).1 rest

/-- Run a request's whole life: construction with an attached stream, a
sequence of user calls, then destruction; collect every enqueued job in
order. -/
def requestLifecycleJobs (stream : Nat) (calls : List TRequestCall) : List TServerJob :=
  requestRunCalls ⟨some stream⟩ calls

/-- The fixed answer of `TServer::TFail::DoRun` (https.cpp:1804-1805), built
exactly as the source builds it: two juxtaposed string literals. -/
def failAnswer : String :=
  "HTTP/1.1 503 Service unavailable\r\n" ++ "Content-Length: 0\r\n\r\n"

/-- Effect of `TFail::DoRun` (https.cpp:1802-1813): the bytes written to the
stream and the jobs enqueued afterwards. -/
structure TFailEffect where
  written : String
  enqueued : List TServerJob
deriving DecidableEq, Repr

/-- `TFail::DoRun` (https.cpp:1802-1813): write `failAnswer` on the held
stream, then enqueue a `TRead` job on the same stream. -/
def TFailDoRun (stream : Nat) : TFailEffect :=
  ⟨failAnswer, [TServerJob.read stream]⟩

/-! Helper lemmas. -/

/-- Lowercasing a byte is transparent to the dot delimiter: only the dot
lowercases to a dot. -/
theorem lowerByte_eq_dot_iff (b : Nat) : lowerByte b = dotByte ↔ b = dotByte := by
  unfold lowerByte dotByte
  split <;> omega

/-- `splitFirst` at the dot commutes with bytewise ASCII lowercasing. -/
theorem splitFirst_map_lowerByte (l : List Nat) :
    splitFirst dotByte (l.map lowerByte) =
      ((splitFirst dotByte l).1.map lowerByte, (splitFirst dotByte l).2.map lowerByte) := by
  induction l with
  | nil => rfl
  | cons c cs ih =>
    by_cases h : c = dotByte
    · have h2 : lowerByte c = dotByte := (lowerByte_eq_dot_iff c).mpr h
      simp [splitFirst, h, h2, (by decide : lowerByte dotByte = dotByte)]
    · have h2 : lowerByte c ≠ dotByte := fun hh => h ((lowerByte_eq_dot_iff c).mp hh)
      simp [splitFirst, h, h2, ih]

/-- The length test inside `EqualNoCase` is subsumed by the lowercased
comparison: the whole test equals equality of the lowercased copies. -/
theorem equalNoCase_eq (a b : List Nat) :
    EqualNoCase a b = (a.map lowerByte == b.map lowerByte) := by
  unfold EqualNoCase
  cases hm : (a.map lowerByte == b.map lowerByte) with
  | false => simp
  | true =>
    have hmap : a.map lowerByte = b.map lowerByte := eq_of_beq hm
    have hl : a.length = b.length := by
      have := congrArg List.length hmap
      simpa using this
    simp [hl]

/-- When the delimiter byte does not occur, `NextTok` consumes the whole
buffer and leaves an empty rest. -/
theorem splitFirst_of_not_mem {d : Nat} {l : List Nat} (h : d ∉ l) :
    splitFirst d l = (l, []) := by
  induction l with
  | nil => rfl
  | cons c cs ih =>
    simp only [List.mem_cons, not_or] at h
    have hc : ¬(c = d) := fun hh => h.1 hh.symm
    simp [splitFirst, hc, ih h.2]

/-- `EqualNoCase` against the empty buffer holds exactly for the empty
buffer. -/
theorem equalNoCase_nil_iff (r : List Nat) : EqualNoCase [] r = true ↔ r = [] := by
  cases r <;> simp [EqualNoCase]

/-! Claim theorems. -/

/-- C1: certificate hostname matching is case-insensitive with a full-label
left-most wildcard only: `MatchDomainName tmpl name` returns true exactly when
the template equals the hostname ignoring ASCII case, or the template's first
label is exactly `*` and the template's remainder after that label equals the
hostname's remainder after its first label, ignoring ASCII case. -/
theorem matchDomainName_eq_spec (tmpl name : List Nat) :
    MatchDomainName tmpl name = specMatchDomainName tmpl name := by
  unfold MatchDomainName specMatchDomainName
  by_cases hw : (splitFirst dotByte tmpl).1 = [starByte]
  · rw [if_pos hw, equalNoCase_eq]
    simp only [hw, beq_self_eq_true, Bool.true_and]
    cases hmn : (tmpl.map lowerByte == name.map lowerByte) with
    | false => simp [hmn]
    | true =>
      have hEq : tmpl.map lowerByte = name.map lowerByte := eq_of_beq hmn
      have h1 := splitFirst_map_lowerByte tmpl
      have h2 := splitFirst_map_lowerByte name
      rw [hEq] at h1
      have hsnd : (splitFirst dotByte tmpl).2.map lowerByte =
          (splitFirst dotByte name).2.map lowerByte := congrArg Prod.snd (h1.symm.trans h2)
      simp [hmn, hsnd]
  · rw [if_neg hw, equalNoCase_eq]
    have hwb : ((splitFirst dotByte tmpl).1 == [starByte]) = false := by
      simpa using hw
    simp [hwb]

/-- C5 counterexample: at input limits soft=10, hard=100, keep-alive bounds
10 s and 120 s, and 55 accepted sockets, the computed idle timeout is not the
claimed `120 * (100 - 55 - 10) / (100 - 10 + 1)` (which is 46). -/
theorem keepalive_s8_cex :
    TInputConnections.UnusedConnKeepaliveTimeout ⟨55, ⟨10, 100⟩, 120, 10⟩ ≠
      120 * (100 - 55 - 10) / (100 - 10 + 1) := by decide

/-- C5 amended: with soft=10, hard=100, min=10 s, max=120 s and 55 accepted
sockets, the governor computes `left = (hard - soft) - (counter - soft) = 45`,
so the idle timeout is `120 * (100 - 55) / (100 - 10 + 1) = 59` seconds
(still at least 10 s). -/
theorem keepalive_s8_value :
    TInputConnections.UnusedConnKeepaliveTimeout ⟨55, ⟨10, 100⟩, 120, 10⟩ =
        120 * (100 - 55) / (100 - 10 + 1) ∧
      TInputConnections.UnusedConnKeepaliveTimeout ⟨55, ⟨10, 100⟩, 120, 10⟩ = 59 := by
  decide

/-- C6: the idle keep-alive governor returns `max_keepalive_s` when
`counter ≤ soft`, and otherwise `max min_keepalive_s (max_keepalive_s *
(max 0 (d - e)) / (d + 1))` with `e = counter - soft` and `d = hard - soft`,
exactly as the spec formula states. -/
theorem unusedConnKeepaliveTimeout_eq_spec (s : TInputConnections) :
    s.UnusedConnKeepaliveTimeout = specIdleKeepaliveTimeout s := by
  unfold TInputConnections.UnusedConnKeepaliveTimeout specIdleKeepaliveTimeout
    TInputConnections.ExceedSoftLimit TInputConnections.DeltaLimit
    TFdLimits.ExceedLimit TFdLimits.Delta
  by_cases h : s.Counter ≤ s.Limits.Soft
  · have h0 : s.Counter - s.Limits.Soft = 0 := Nat.sub_eq_zero_of_le h
    simp [h, h0]
  · have h1 : s.Counter - s.Limits.Soft ≠ 0 := by omega
    simp [h, h1, Nat.max_comm]

/-- C9 counterexample: the single-label template `*` does match a hostname
containing a dot, namely the two-byte hostname `a.` (bytes 97, 46), because
both remainders after the first label are empty. -/
theorem star_matches_dotted_cex :
    MatchDomainName [starByte] [97, dotByte] = true ∧ dotByte ∈ [97, dotByte] := by
  decide

/-- C9 amended: the template consisting of the single label `*` matches every
hostname with no dot (in particular every one-label hostname), and in general
matches a hostname exactly when the hostname's remainder after its first
dot-separated label is empty - so among hostnames containing a dot, precisely
those whose first dot is the final byte. -/
theorem star_template_matches_iff (name : List Nat) :
    (dotByte ∉ name → MatchDomainName [starByte] name = true) ∧
      (MatchDomainName [starByte] name = true ↔ (splitFirst dotByte name).2 = []) := by
  have hsplit : splitFirst dotByte [starByte] = ([starByte], []) := by decide
  have hmain : MatchDomainName [starByte] name = true ↔ (splitFirst dotByte name).2 = [] := by
    unfold MatchDomainName
    rw [hsplit]
    simpa using equalNoCase_nil_iff (splitFirst dotByte name).2
  refine ⟨fun h => ?_, hmain⟩
  rw [hmain, splitFirst_of_not_mem h]

/-- C9 witness: the star template accepts the dotless one-label hostname `a`. -/
theorem star_template_matches_iff_witness :
    MatchDomainName [starByte] [97] = true :=
  (star_template_matches_iff [97]).1 (by decide)

/-- C10: for every governor state with `min_keepalive_s ≤ max_keepalive_s`,
the computed idle timeout lies in `[min_keepalive_s, max_keepalive_s]` when
`counter > soft`, and equals `max_keepalive_s` when `counter ≤ soft`. -/
theorem keepalive_range (s : TInputConnections)
    (hb : s.MinUnusedConnKeepaliveTimeout ≤ s.MaxUnusedConnKeepaliveTimeout) :
    (s.Limits.Soft < s.Counter →
        s.MinUnusedConnKeepaliveTimeout ≤ s.UnusedConnKeepaliveTimeout ∧
          s.UnusedConnKeepaliveTimeout ≤ s.MaxUnusedConnKeepaliveTimeout) ∧
      (s.Counter ≤ s.Limits.Soft →
        s.UnusedConnKeepaliveTimeout = s.MaxUnusedConnKeepaliveTimeout) := by
  unfold TInputConnections.UnusedConnKeepaliveTimeout
    TInputConnections.ExceedSoftLimit TInputConnections.DeltaLimit
    TFdLimits.ExceedLimit TFdLimits.Delta
  constructor
  · intro hgt
    have h1 : s.Counter - s.Limits.Soft ≠ 0 := by omega
    simp only [h1, if_true, ne_eq, not_false_eq_true, if_pos]
    constructor
    · exact le_max_right _ _
    · have hr : s.MaxUnusedConnKeepaliveTimeout *
          ((s.Limits.Hard - s.Limits.Soft) - (s.Counter - s.Limits.Soft)) /
            ((s.Limits.Hard - s.Limits.Soft) + 1) ≤ s.MaxUnusedConnKeepaliveTimeout := by
        apply Nat.div_le_of_le_mul
        rw [Nat.mul_comm]
        exact Nat.mul_le_mul (by omega) le_rfl
      exact max_le hr hb
  · intro hle
    have h0 : s.Counter - s.Limits.Soft = 0 := Nat.sub_eq_zero_of_le hle
    simp [h0]

/-- C10 witness: at soft=10, hard=100, min=10, max=120 and counter=55 the
bounds hold. -/
theorem keepalive_range_witness :
    10 ≤ TInputConnections.UnusedConnKeepaliveTimeout ⟨55, ⟨10, 100⟩, 120, 10⟩ ∧
      TInputConnections.UnusedConnKeepaliveTimeout ⟨55, ⟨10, 100⟩, 120, 10⟩ ≤ 120 :=
  (keepalive_range ⟨55, ⟨10, 100⟩, 120, 10⟩ (by decide)).1 (by decide)

/-- A queue never grows under one purge pass. -/
theorem purgeQueue_length_le (frac : Nat) (q : List Bool) :
    (purgeQueue frac q).length ≤ q.length := by
  match q with
  | [] => simp [purgeQueue]
  | a :: rest =>
    simp only [purgeQueue]
    rw [if_neg (by simp : ¬((a :: rest).length = 0))]
    by_cases hpc : (a :: rest).length * frac / 256 = 0
    · rw [if_pos hpc]
      by_cases h2 : (a :: rest).length ≤ 2
      · rw [if_pos h2]
        cases a <;> simp
      · rw [if_neg h2]
        simp
    · rw [if_neg hpc]
      simp

/-- A queue whose purge quota is at least 1, or which holds more than two
entries, or whose oldest entry is dead, strictly shrinks under one purge
pass. -/
theorem purgeQueue_length_lt (frac : Nat) (q : List Bool)
    (h : queueForcedShrink frac q = true) :
    (purgeQueue frac q).length < q.length := by
  match q with
  | [] => simp [queueForcedShrink] at h
  | a :: rest =>
    simp only [queueForcedShrink, List.length_cons, Bool.or_eq_true, decide_eq_true_eq,
      Bool.not_eq_true'] at h
    simp only [purgeQueue, List.length_cons]
    rw [if_neg (by omega : ¬(rest.length + 1 = 0))]
    by_cases hpc : (rest.length + 1) * frac / 256 = 0
    · rw [if_pos hpc]
      by_cases h2 : rest.length + 1 ≤ 2
      · rw [if_pos h2]
        have ha : a = false := by
          rcases h with (h | h) | h
          · omega
          · omega
          · exact h
        subst ha
        simp
      · rw [if_neg h2]
        simp only [List.length_drop, List.length_cons]
        omega
    · rw [if_neg hpc]
      simp only [List.length_drop, List.length_cons]
      omega

/-- C2 counterexample: with limits soft=0, hard=1, one connection handed out
(`ActiveSockets = 1`) and an empty cache, the entry gate of
`TConnCache::Connect` does not fail - `ExceedHardLimit` is `max 0 (1 - 1) = 0`
- so the acquire proceeds to the dequeue/connect path rather than returning
the `OutputLimit` error. -/
theorem connectGate_hard1_active1_cex :
    TConnCache.ConnectGate ⟨⟨0, 1⟩, 1, [], 0⟩ = TConnectGate.proceedToConnect := by
  decide

/-- C2 amended: `TConnCache::Connect` refuses with the `OutputLimit` error,
before any socket work, exactly when `active + cached` strictly exceeds the
hard limit; with `hard = 1` this takes `active + cached = 2` (for example two
connections in flight), while `active = 1, cached = 0` passes the gate. -/
theorem connectGate_outputLimit_iff (s : TConnCache) :
    s.ConnectGate = TConnectGate.outputLimitError ↔ s.Limits.Hard < s.TotalSockets := by
  unfold TConnCache.ConnectGate
  by_cases h : s.Limits.Hard < s.TotalSockets
  · have hne : s.ExceedHardLimit ≠ 0 := by
      unfold TConnCache.ExceedHardLimit TFdLimits.ExceedLimit
      omega
    simp [hne, h]
  · have he : s.ExceedHardLimit = 0 := by
      unfold TConnCache.ExceedHardLimit TFdLimits.ExceedLimit
      omega
    simp [he, h]

/-- C2 witness: with soft=0, hard=1 and two connections handed out, the gate
does refuse with the output-limit error. -/
theorem connectGate_outputLimit_iff_witness :
    TConnCache.ConnectGate ⟨⟨0, 1⟩, 2, [], 0⟩ = TConnectGate.outputLimitError :=
  (connectGate_outputLimit_iff ⟨⟨0, 1⟩, 2, [], 0⟩).mpr (by decide)

/-- C3 counterexample: take soft=32, hard=1000, no active sockets and one
host queue holding 33 live sockets.  The purge fraction is
`min (max 8 (1 * 256 / 34)) 256 = 8`, so the claimed removal count is
`ceil (33 * 8 / 256) = 2`, but the purge pass removes only
`floor (33 * 8 / 256) = 1` entry. -/
theorem purge_removal_ne_ceil_cex :
    (TConnCache.CachedSockets ⟨⟨32, 1000⟩, 0, [List.replicate 33 true], 1⟩ -
        (TConnCache.PurgeCache ⟨⟨32, 1000⟩, 0, [List.replicate 33 true], 1⟩).CachedSockets = 1) ∧
      (33 * (TConnCache.PurgeFrac256 ⟨⟨32, 1000⟩, 0, [List.replicate 33 true], 1⟩) + 255) / 256 = 2 := by
  decide

/-- C3 amended: on a purge run, for every non-empty queue visited (index in
`[0, MaxConnId)`), with `fraction = clamp (256/32) (excess_soft * 256 / (cached + 1)) 256`
computed once at entry, the purger removes exactly
`floor (queue_size * fraction / 256)` entries when that floor is non-zero;
when the floor is zero it removes exactly one entry from a queue of more than
two entries, and on a queue of at most two entries it removes the dequeued
oldest entry exactly when that entry's socket is dead (an alive entry is
re-enqueued, removing none). -/
theorem purgeQueue_removal_formula (s : TConnCache) (a : Bool) (rest : List Bool)
    (_hmem : (a :: rest) ∈ s.Lst.take s.MaxConnId) :
    (a :: rest).length - (purgeQueue s.PurgeFrac256 (a :: rest)).length =
      (if (a :: rest).length * s.PurgeFrac256 / 256 ≠ 0 then
        (a :: rest).length * s.PurgeFrac256 / 256
       else if 2 < (a :: rest).length then 1
       else if a then 0 else 1) := by
  have hfrac : s.PurgeFrac256 ≤ 256 := min_le_right _ _
  have hpcle : (rest.length + 1) * s.PurgeFrac256 / 256 ≤ rest.length + 1 := by
    apply Nat.div_le_of_le_mul
    rw [Nat.mul_comm 256]
    exact Nat.mul_le_mul le_rfl hfrac
  simp only [purgeQueue, List.length_cons]
  rw [if_neg (by omega : ¬(rest.length + 1 = 0))]
  by_cases hpc : (rest.length + 1) * s.PurgeFrac256 / 256 = 0
  · rw [if_pos hpc, if_neg (by omega : ¬((rest.length + 1) * s.PurgeFrac256 / 256 ≠ 0))]
    by_cases h2 : rest.length + 1 ≤ 2
    · rw [if_pos h2, if_neg (by omega : ¬(2 < rest.length + 1))]
      cases a <;> simp
    · rw [if_neg h2, if_pos (by omega : 2 < rest.length + 1)]
      simp only [List.length_drop, List.length_cons]
      omega
  · rw [if_neg hpc, if_pos hpc]
    simp only [List.length_drop, List.length_cons]
    omega

/-- C3 witness: the removal formula instantiated at the counterexample state
and its 33-entry queue. -/
theorem purgeQueue_removal_formula_witness :
    ((true :: List.replicate 32 true) ∈
        (TConnCache.Lst ⟨⟨32, 1000⟩, 0, [true :: List.replicate 32 true], 1⟩).take
          (TConnCache.MaxConnId ⟨⟨32, 1000⟩, 0, [true :: List.replicate 32 true], 1⟩)) ∧
      (true :: List.replicate 32 true).length -
          (purgeQueue (TConnCache.PurgeFrac256 ⟨⟨32, 1000⟩, 0, [true :: List.replicate 32 true], 1⟩)
            (true :: List.replicate 32 true)).length =
        (if (true :: List.replicate 32 true).length *
              TConnCache.PurgeFrac256 ⟨⟨32, 1000⟩, 0, [true :: List.replicate 32 true], 1⟩ / 256 ≠ 0 then
          (true :: List.replicate 32 true).length *
            TConnCache.PurgeFrac256 ⟨⟨32, 1000⟩, 0, [true :: List.replicate 32 true], 1⟩ / 256
         else if 2 < (true :: List.replicate 32 true).length then 1
         else if true then 0 else 1) :=
  ⟨by decide,
    purgeQueue_removal_formula ⟨⟨32, 1000⟩, 0, [true :: List.replicate 32 true], 1⟩ true
      (List.replicate 32 true) (by decide)⟩

/-- C4 counterexample: a purge run on a non-empty cache need not shrink it.
With soft=0, hard=100, no active sockets and a single one-entry queue holding
a live socket, the cache holds one socket, the purge quota is zero, the
dead-check re-enqueues the live socket, and the cached count stays 1. -/
theorem purge_nonempty_no_strict_decrease_cex :
    0 < TConnCache.CachedSockets ⟨⟨0, 100⟩, 0, [[true]], 1⟩ ∧
      ¬((TConnCache.PurgeCache ⟨⟨0, 100⟩, 0, [[true]], 1⟩).CachedSockets <
        TConnCache.CachedSockets ⟨⟨0, 100⟩, 0, [[true]], 1⟩) := by
  decide

/-- C4 amended: a purge run always terminates (it visits the finitely many
queues below `MaxConnId` once) and never increases the cached count; it
strictly decreases the cached count whenever some visited queue is forced to
shrink - its purge quota is at least 1, or it holds more than two entries, or
its oldest entry is a dead socket.  A non-empty cache whose visited queues all
have at most two entries, zero quota and live oldest entries is left
unchanged (the dead-check re-enqueues the live socket). -/
theorem purgeCache_monotone (s : TConnCache) :
    (s.PurgeCache).CachedSockets ≤ s.CachedSockets ∧
      ((∃ q ∈ s.Lst.take s.MaxConnId, queueForcedShrink s.PurgeFrac256 q = true) →
        (s.PurgeCache).CachedSockets < s.CachedSockets) := by
  have hsplit : s.CachedSockets =
      ((s.Lst.take s.MaxConnId).map List.length).sum +
        ((s.Lst.drop s.MaxConnId).map List.length).sum := by
    unfold TConnCache.CachedSockets
    conv_lhs => rw [← List.take_append_drop s.MaxConnId s.Lst]
    rw [List.map_append, List.sum_append]
  have hafter : (s.PurgeCache).CachedSockets =
      (((s.Lst.take s.MaxConnId).map (purgeQueue s.PurgeFrac256)).map List.length).sum +
        ((s.Lst.drop s.MaxConnId).map List.length).sum := by
    unfold TConnCache.PurgeCache TConnCache.CachedSockets
    rw [List.map_append, List.sum_append]
  constructor
  · rw [hsplit, hafter, List.map_map]
    have : (((s.Lst.take s.MaxConnId).map (List.length ∘ purgeQueue s.PurgeFrac256)).sum ≤
        ((s.Lst.take s.MaxConnId).map List.length).sum) :=
      List.sum_le_sum fun q _ => purgeQueue_length_le s.PurgeFrac256 q
    omega
  · intro hex
    rw [hsplit, hafter, List.map_map]
    have : (((s.Lst.take s.MaxConnId).map (List.length ∘ purgeQueue s.PurgeFrac256)).sum <
        ((s.Lst.take s.MaxConnId).map List.length).sum) := by
      apply List.sum_lt_sum
      · exact fun q _ => purgeQueue_length_le s.PurgeFrac256 q
      · obtain ⟨q, hq, hshrink⟩ := hex
        exact ⟨q, hq, purgeQueue_length_lt s.PurgeFrac256 q hshrink⟩
    omega

/-- C4 witness: a cache whose single visited queue holds one dead socket
strictly shrinks under the purge run. -/
theorem purgeCache_monotone_witness :
    (TConnCache.PurgeCache ⟨⟨0, 100⟩, 0, [[false]], 1⟩).CachedSockets <
      TConnCache.CachedSockets ⟨⟨0, 100⟩, 0, [[false]], 1⟩ :=
  (purgeCache_monotone ⟨⟨0, 100⟩, 0, [[false]], 1⟩).2 ⟨[false], by decide, by decide⟩

/-- The poll-timeout trace of a read call is chained by the timeout update,
and its first poll (when one happens) uses exactly the timeout the bio
carried into the call. -/
theorem bioReadLoop_chain_aux (evs : List (Bool × TContIOResult)) : ∀ t : Nat,
    bioTimeoutChain (bioReadLoop t evs).pollTimeouts ∧
      (∀ p polls, (bioReadLoop t evs).pollTimeouts = p :: polls → p = t) := by
  induction evs with
  | nil =>
    intro t
    refine ⟨trivial, ?_⟩
    intro p polls h
    simp [bioReadLoop] at h
  | cons e rest ih =>
    intro t
    obtain ⟨c, io⟩ := e
    cases c with
    | true =>
      refine ⟨?_, ?_⟩
      · simp [bioReadLoop, bioTimeoutChain]
      · intro p polls h
        simp [bioReadLoop] at h
    | false =>
      cases io with
      | done q =>
        refine ⟨?_, ?_⟩
        · simp [bioReadLoop, bioTimeoutChain]
        · intro p polls h
          simp [bioReadLoop] at h
          exact h.1.symm
      | timedOut =>
        have ih' := ih (nextBioTimeout t)
        have hunf : (bioReadLoop t ((false, TContIOResult.timedOut) :: rest)).pollTimeouts =
            t :: (bioReadLoop (nextBioTimeout t) rest).pollTimeouts := by
          simp [bioReadLoop]
        refine ⟨?_, ?_⟩
        · rw [hunf]
          cases hp : (bioReadLoop (nextBioTimeout t) rest).pollTimeouts with
          | nil => trivial
          | cons q qs =>
            have hq : q = nextBioTimeout t := ih'.2 q qs hp
            subst hq
            have := ih'.1
            rw [hp] at this
            exact ⟨rfl, this⟩
        · intro p polls h
          rw [hunf] at h
          exact (List.cons.injEq .. ▸ h).1.symm

/-- Every poll timeout used by a read call stays at or below the 1-second
cap, provided the carried-in timeout already does. -/
theorem bioReadLoop_polls_le (evs : List (Bool × TContIOResult)) : ∀ t : Nat,
    t ≤ 1000000 → ∀ p ∈ (bioReadLoop t evs).pollTimeouts, p ≤ 1000000 := by
  induction evs with
  | nil =>
    intro t ht p hp
    simp [bioReadLoop] at hp
  | cons e rest ih =>
    intro t ht p hp
    obtain ⟨c, io⟩ := e
    cases c with
    | true => simp [bioReadLoop] at hp
    | false =>
      cases io with
      | done q =>
        simp [bioReadLoop] at hp
        omega
      | timedOut =>
        simp [bioReadLoop] at hp
        rcases hp with hp | hp
        · omega
        · exact ih (nextBioTimeout t) (Nat.min_le_left _ _) p hp

/-- No `SendReply`/`SendError` call ever enqueues a failure job once `IO_`
has been released. -/
theorem requestRunCalls_none_no_fail (calls : List TRequestCall) (st : Nat) :
    TServerJob.fail st ∉ requestRunCalls ⟨none⟩ calls := by
  induction calls with
  | nil => simp [requestRunCalls, requestDestruct]
  | cons c rest ih =>
    cases c <;> simpa [requestRunCalls, requestApplyCall] using ih

/-- C7 counterexample: the poll timeout does not start at 10 ms on each read
call.  After one read call that saw a single timed-out poll and then
completed, the bio carries `Timeout_ = 15000` microseconds, and the next read
call's first poll uses 15000 microseconds, not the claimed 10 ms. -/
theorem bioRead_timeout_persists_cex :
    (bioReadLoop
        (bioReadLoop initialBioTimeout
          [(false, TContIOResult.timedOut), (false, TContIOResult.done 5)]).timeoutAfter
        [(false, TContIOResult.done 3)]).pollTimeouts = [15000] ∧
      (15000 : Nat) ≠ initialBioTimeout := by
  decide

/-- C7 amended: the cancellable read loop's poll timeout is initialized to
10 ms (10000 microseconds) when the bio is constructed and persists across
read calls (it is not reset per call); each poll uses the carried-in timeout,
each timed-out poll updates it to `min 1000000 (t + t / 2)` (growth by a
factor of 1.5, capped at 1 second); the cancellation flag is re-checked
before each poll and, as soon as it is observed set, the read returns the
sentinel `SSL_RVAL_TIMEOUT = -42` without polling again - a value distinct
from 0 (orderly peer close), from every nonnegative byte count, and from the
-1 returned when no bio or coroutine is attached. -/
theorem bioReadLoop_amended :
    initialBioTimeout = 10000 ∧
      (∀ t evs, bioTimeoutChain (bioReadLoop t evs).pollTimeouts) ∧
      (∀ t evs p polls, (bioReadLoop t evs).pollTimeouts = p :: polls → p = t) ∧
      (∀ t evs, t ≤ 1000000 → ∀ p ∈ (bioReadLoop t evs).pollTimeouts, p ≤ 1000000) ∧
      (∀ (t : Nat) (e : TContIOResult) rest,
        bioReadLoop t ((true, e) :: rest) = ⟨some SSL_RVAL_TIMEOUT, t, []⟩) ∧
      SSL_RVAL_TIMEOUT ≠ 0 ∧ SSL_RVAL_TIMEOUT ≠ -1 ∧
      ∀ p : Nat, SSL_RVAL_TIMEOUT ≠ (p : Int) := by
  refine ⟨rfl, ?_, ?_, ?_, ?_, by decide, by decide, ?_⟩
  · intro t evs
    exact (bioReadLoop_chain_aux evs t).1
  · intro t evs
    exact (bioReadLoop_chain_aux evs t).2
  · intro t evs
    exact bioReadLoop_polls_le evs t
  · intro t e rest
    simp [bioReadLoop]
  · intro p
    simp only [SSL_RVAL_TIMEOUT]
    omega

/-- C7 witness: the chain and cap facts instantiated on a concrete two-poll
schedule starting from the construction-time timeout. -/
theorem bioReadLoop_amended_witness :
    bioTimeoutChain
        (bioReadLoop 10000
          [(false, TContIOResult.timedOut), (false, TContIOResult.done 5)]).pollTimeouts ∧
      ∀ p ∈ (bioReadLoop 10000
          [(false, TContIOResult.timedOut), (false, TContIOResult.done 5)]).pollTimeouts,
        p ≤ 1000000 :=
  ⟨bioReadLoop_amended.2.1 10000 _, bioReadLoop_amended.2.2.2.1 10000 _ (by decide)⟩

/-- C8: a server-side request destroyed without `SendReply` or `SendError`
enqueues exactly one failure job; running that job writes exactly the bytes
`HTTP/1.1 503 Service unavailable\r\nContent-Length: 0\r\n\r\n` to the
connection and then enqueues a read job on the same stream; and when
`SendReply` or `SendError` was called (a non-empty call list), no failure job
is ever enqueued. -/
theorem requestDrop_failJob :
    (∀ stream : Nat,
        requestLifecycleJobs stream [] = [TServerJob.fail stream] ∧
          TFailDoRun stream =
            ⟨"HTTP/1.1 503 Service unavailable\r\nContent-Length: 0\r\n\r\n",
              [TServerJob.read stream]⟩) ∧
      ∀ (stream : Nat) (calls : List TRequestCall), calls ≠ [] →
        ∀ st : Nat, TServerJob.fail st ∉ requestLifecycleJobs stream calls := by
  constructor
  · intro stream
    exact ⟨rfl, rfl⟩
  · intro stream calls hne st
    match calls with
    | [] => exact absurd rfl hne
    | c :: rest =>
      have happ : requestApplyCall ⟨some stream⟩ c = (⟨none⟩, [TServerJob.write (some stream)]) := by
        cases c <;> rfl
      show TServerJob.fail st ∉ requestRunCalls ⟨some stream⟩ (c :: rest)
      simp only [requestRunCalls, happ]
      intro hmem
      rcases List.mem_append.mp hmem with hmem | hmem
      · simp at hmem
      · exact requestRunCalls_none_no_fail rest st hmem

/-- C8 witness: a request on stream 7 dropped without a reply enqueues the
failure job whose run writes the fixed 503 answer and re-enqueues a read on
stream 7; after a `SendReply` the lifecycle enqueues no failure job. -/
theorem requestDrop_failJob_witness :
    (requestLifecycleJobs 7 [] = [TServerJob.fail 7] ∧
        TFailDoRun 7 =
          ⟨"HTTP/1.1 503 Service unavailable\r\nContent-Length: 0\r\n\r\n",
            [TServerJob.read 7]⟩) ∧
      TServerJob.fail 7 ∉ requestLifecycleJobs 7 [TRequestCall.sendReply] :=
  ⟨requestDrop_failJob.1 7,
    requestDrop_failJob.2 7 [TRequestCall.sendReply] (by decide) 7⟩

end Https
